import Mathlib

/-!
Verification of the multi-account messaging orchestrator of
JasonCian/LocalBackendServer.

Shallow embedding of:
- `TelegramAccountManager` (src/src/services/telegram/telegram-account-manager.js):
  the account registry (`accounts` Map, `activeAccountId`) and its operations
  `addAccount`, `removeAccount`, `switchAccount`, `updateAccount`.
- `TelegramTaskManager` (src/unnamed/part_005, multi-account version):
  cron normalization in `scheduleTask`, `rescheduleAll`, the runOnce cron-job
  body, `markMessageAsProcessed` dedup, `deleteTask`.
- `TelegramService` (src/unnamed/part_005): the orchestrator operations
  `switchAccount`, `startListenTask`, `stopListenTask`, `deleteTask`,
  `runTaskNow`.
- `TelegramSession.monitorChannel` (src/src/services/file-service/file-service.js):
  the cooperative channel polling loop.

File writes (`saveAccounts` / `saveTasks`) are modelled by counters; the
notification collaborator by lists of emitted notifications; network effects
(session health, send outcomes, fetched message batches) by explicit
environment parameters.
-/

namespace LBS

/-- An account record as stored in the accounts `Map` of
`TelegramAccountManager`: `{ id, phone, name, active, sessionFile, createdAt }`.
`createdAt` abstracts the ISO timestamp as a number supplied by the caller. -/
structure Account where
  id : String
  phone : String
  name : String
  active : Bool
  sessionFile : String
  createdAt : Nat
  deriving DecidableEq, Repr

/-- The mutable state of `TelegramAccountManager`: the insertion-ordered
accounts `Map` (a list of accounts with the map key equal to the `id` field),
`activeAccountId`, and a counter of `saveAccounts` file writes. -/
structure MgrState where
  accounts : List Account
  activeAccountId : Option String
  saves : Nat
  deriving DecidableEq, Repr

/-- `makeAccountId(phone)`: `phone.replace(/[^0-9]/g, '')` — keep only the
digit characters of the phone number. -/
def makeAccountId (phone : String) : String :=
  String.mk (phone.toList.filter Char.isDigit)

/-- `this.accounts.has(accountId)` on the accounts `Map`. -/
def hasAccount (s : MgrState) (accountId : String) : Bool :=
  s.accounts.any fun a => a.id == accountId

/-- `TelegramAccountManager.addAccount(phone, name)`. Throws (here: returns
`Except.error`) when the derived id already exists, before any mutation;
otherwise inserts the account (active iff the registry was empty), updates
`activeAccountId` for a first account, and saves. `now` abstracts
`new Date().toISOString()`. -/
def addAccount (s : MgrState) (phone name : String) (now : Nat) :
    MgrState × Except String Account :=
  let accountId := makeAccountId phone
  if hasAccount s accountId then
    (s, Except.error "账号已存在")
  else
    let account : Account :=
      { id := accountId
        phone := phone
        name := if name = "" then phone else name
        active := s.accounts.isEmpty
        sessionFile := "./data/telegram-session-" ++ accountId ++ ".txt"
        createdAt := now }
    ({ accounts := s.accounts ++ [account]
       activeAccountId := if account.active then some accountId else s.activeAccountId
       saves := s.saves + 1 },
     Except.ok account)

/-- `TelegramAccountManager.removeAccount(accountId)`: returns `false` and
leaves the state unchanged for an unknown id; otherwise deletes the account,
and if the removed account was the active one promotes the first remaining
account (setting its `active` flag) or clears `activeAccountId`, then saves.
(The session-instance and session-file deletions are I/O side effects outside
the registry state.) -/
def removeAccount (s : MgrState) (accountId : String) : MgrState × Bool :=
  if hasAccount s accountId then
    let remaining := s.accounts.filter fun a => !(a.id == accountId)
    if s.activeAccountId = some accountId then
      match remaining with
      | [] =>
          ({ accounts := [], activeAccountId := none, saves := s.saves + 1 }, true)
      | first :: rest =>
          ({ accounts := { first with active := true } :: rest
             activeAccountId := some first.id
             saves := s.saves + 1 }, true)
    else
      ({ accounts := remaining, activeAccountId := s.activeAccountId,
         saves := s.saves + 1 }, true)
  else (s, false)

/-- `TelegramAccountManager.switchAccount(accountId)`: `false` for an unknown
id; otherwise clears `active` on every account, sets it on the target entry,
updates `activeAccountId` and saves. -/
def switchAccount (s : MgrState) (accountId : String) : MgrState × Bool :=
  if hasAccount s accountId then
    let cleared := s.accounts.map fun a => { a with active := false }
    let accounts1 := cleared.map fun a =>
      if a.id == accountId then { a with active := true } else a
    ({ accounts := accounts1, activeAccountId := some accountId,
       saves := s.saves + 1 }, true)
  else (s, false)

/-- `TelegramAccountManager.updateAccount(accountId, updates)`: `null` and no
mutation for an unknown id; otherwise only the `name` field is applied when
provided (`updates.name !== undefined`), and the registry is saved. The
updated account object is returned. -/
def updateAccount (s : MgrState) (accountId : String) (newName : Option String) :
    MgrState × Option Account :=
  if hasAccount s accountId then
    let accounts1 := s.accounts.map fun a =>
      if a.id == accountId then { a with name := newName.getD a.name } else a
    ({ s with accounts := accounts1, saves := s.saves + 1 },
     accounts1.find? fun a => a.id == accountId)
  else (s, none)

/-- An administrative operation on the account registry. -/
inductive MgrOp where
  | add (phone name : String) (now : Nat)
  | remove (accountId : String)
  | switch (accountId : String)
  deriving DecidableEq, Repr

/-- Apply one registry operation (dropping the returned value). -/
def applyOp (s : MgrState) : MgrOp → MgrState
  | MgrOp.add p n t => (addAccount s p n t).1
  | MgrOp.remove i => (removeAccount s i).1
  | MgrOp.switch i => (switchAccount s i).1

/-- Apply a sequence of registry operations. -/
def applyOps (s : MgrState) (ops : List MgrOp) : MgrState :=
  ops.foldl applyOp s

/-- The registry state of a fresh manager whose accounts file was absent or
empty. -/
def initMgrState : MgrState :=
  { accounts := [], activeAccountId := none, saves := 0 }

/-- Number of accounts with `active = true`. -/
def activeCount (l : List Account) : Nat :=
  (l.filter fun a => a.active).length

/-- Registry well-formedness: account ids are distinct (they are `Map` keys),
and either the registry is empty with no active id, or `activeAccountId`
names a registered account and `active` holds exactly on that account. -/
def Inv (s : MgrState) : Prop :=
  (s.accounts.map Account.id).Nodup ∧
  ((s.activeAccountId = none ∧ s.accounts = []) ∨
    (∃ i, s.activeAccountId = some i ∧
      (∃ a, a ∈ s.accounts ∧ a.id = i) ∧
      ∀ a, a ∈ s.accounts → (a.active = true ↔ a.id = i)))

/-- Discriminant of the task union: `type: 'send' | 'listen'`. -/
inductive TaskType where
  | send
  | listen
  deriving DecidableEq, Repr

/-- A task record of `TelegramTaskManager` (both variants share one record;
`type` discriminates, and the unused fields of a variant are defaulted by the
constructor in `createTask`). `sendTo` models the `to` field of the source,
whose name is reserved in Lean. -/
structure Task where
  id : String
  type : TaskType
  cron : String
  sendTo : String
  message : String
  channel : String
  accountId : Option String
  enabled : Bool
  runOnce : Bool
  deriving DecidableEq, Repr

/-- The per-listen-task dedup structure `listenedMessageIds`:
`Map: listenTaskId -> Set<messageId>`, as an insertion-ordered association
list with the set as an insertion-ordered list of distinct ids. -/
abbrev DedupMap : Type := List (String × List Nat)

/-- The mutable state of `TelegramTaskManager`: the tasks array, the
`scheduled` Map of running cron jobs (keys only; the job handles are opaque),
a `saveTasks` write counter and the dedup map. -/
structure TMState where
  tasks : List Task
  scheduledIds : List String
  tasksSaves : Nat
  dedup : DedupMap
  deriving DecidableEq, Repr

/-- `String.prototype.trim`: drop leading and trailing whitespace
(character-level model of the JS semantics). -/
def jsTrim (s : String) : String :=
  String.mk (((s.toList.dropWhile Char.isWhitespace).reverse.dropWhile
    Char.isWhitespace).reverse)

/-- Count the maximal non-whitespace runs of a character list; `inWord` says
whether the previous character belonged to a run. -/
def countFieldsAux : Bool → List Char → Nat
  | _, [] => 0
  | inWord, c :: cs =>
    if c.isWhitespace then countFieldsAux false cs
    else (if inWord then 0 else 1) + countFieldsAux true cs

/-- Number of cron fields, as counted by `cronExpr.split(/\s+/).length` on
the trimmed expression: on a trimmed non-empty string, `split(/\s+/)` yields
exactly the maximal non-whitespace runs. -/
def cronFieldCount (s : String) : Nat :=
  countFieldsAux false (jsTrim s).toList

/-- The cron normalization step of `scheduleTask`:
`String(task.cron).trim()`, and when the expression has exactly 5 fields
(`cronExpr.split(/\s+/).length === 5`) prefix a `"0"` seconds field to obtain
the 6-field node-cron form. -/
def normalizeCron (s : String) : String :=
  let t := jsTrim s
  if cronFieldCount s = 5 then "0 " ++ t else t

/-- `scheduleTask(task, executeCallback)` restricted to its effect on the
`scheduled` Map: a disabled task only clears a stale entry; a listen task is
skipped; an enabled send task is registered iff node-cron (abstracted as the
`validate` parameter) accepts the normalized expression. -/
def scheduleSendTask (validate : String → Bool) (scheduledIds : List String)
    (task : Task) : List String :=
  if !task.enabled then
    scheduledIds.filter fun i => !(i == task.id)
  else if task.type = TaskType.listen then
    scheduledIds
  else if validate (normalizeCron task.cron) then
    if scheduledIds.contains task.id then scheduledIds
    else scheduledIds ++ [task.id]
  else
    scheduledIds

/-- `TelegramTaskManager.rescheduleAll(executeCallback)`: stop and clear every
scheduled cron job, then re-run `scheduleTask` over the task list. Note the
function takes a single callback: the listen-start callback passed by
`TelegramService.rescheduleAllTasks` is not a parameter and is dropped, and
`scheduleTask` ignores listen tasks, so listeners are untouched. -/
def rescheduleAll (validate : String → Bool) (tm : TMState) : TMState :=
  { tm with scheduledIds := tm.tasks.foldl (scheduleSendTask validate) [] }

/-- `tasks.find(t => t.id === taskId) || null`. -/
def getTask (tm : TMState) (taskId : String) : Option Task :=
  tm.tasks.find? fun t => t.id == taskId

/-- `TelegramTaskManager.markMessageAsProcessed(listenTaskId, messageId)`:
when the task has a dedup entry, report whether the message id is absent from
its set and add it if so (`msgIdSet.add` mutates the stored set, modelled by
updating the entry in place); when the task has no entry yet, an empty set is
installed first (`listenedMessageIds.set(listenTaskId, new Set())`), in which
the id is necessarily new, and the id is then added to that fresh entry. -/
def markMessageAsProcessed (m : DedupMap) (tid : String) (msgId : Nat) :
    Bool × DedupMap :=
  match m.find? fun p => p.1 == tid with
  | some q =>
    if q.2.contains msgId then (false, m)
    else (true, m.map fun p => if p.1 == tid then (p.1, p.2 ++ [msgId]) else p)
  | none =>
    (true, (m ++ [(tid, [])]).map fun p : String × List Nat =>
      if p.1 == tid then (p.1, p.2 ++ [msgId]) else p)

/-- Membership in a task's dedup set (what `set.has(messageId)` reads). -/
def memDedup (m : DedupMap) (tid : String) (msgId : Nat) : Bool :=
  (((m.find? fun p => p.1 == tid).map Prod.snd).getD []).contains msgId

/-- Feed one batch of message ids through the listen-task message callback of
`TelegramService.startListenTask`: each message is first passed to
`markMessageAsProcessed`; when that returns `false` the callback returns
without notifying, otherwise one notification for the id is emitted. Returns
the final dedup map and the ids notified, in order. -/
def processBatch (m : DedupMap) (tid : String) : List Nat → DedupMap × List Nat
  | [] => (m, [])
  | msg :: rest =>
    let r := markMessageAsProcessed m tid msg
    let rec_ := processBatch r.2 tid rest
    (rec_.1, (if r.1 then [msg] else []) ++ rec_.2)

/-- Feed a sequence of (possibly overlapping) batches through the callback. -/
def processBatches (m : DedupMap) (tid : String) :
    List (List Nat) → DedupMap × List Nat
  | [] => (m, [])
  | b :: bs =>
    let r := processBatch m tid b
    let rs := processBatches r.1 tid bs
    (rs.1, r.2 ++ rs.2)

/-- `tasks[idx] = { ...tasks[idx], enabled: false }` at
`idx = tasks.findIndex(x => x.id === taskId)`: disable the first task with
the given id, leaving the rest untouched (no change when the id is absent). -/
def disableFirst : List Task → String → List Task
  | [], _ => []
  | t :: ts, tid =>
    if t.id == tid then { t with enabled := false } :: ts
    else t :: disableFirst ts tid

/-- The `finally` clause of the cron-job body installed by `scheduleTask`,
together with the success/failure notification of the `try`/`catch` part.
`outcome` is the result of `executeCallback(task)`. Returns the new task-
manager state, the notification titles emitted, and whether the cron job was
stopped and removed. For a `runOnce` task the job is stopped, its entry is
deleted from `scheduled`, and — when the task is still in the list — the
task is disabled and the list is persisted, regardless of the outcome. -/
def fireCronJob (tm : TMState) (task : Task) (outcome : Except String Nat) :
    TMState × List String × Bool :=
  let notifs := match outcome with
    | Except.ok _ => ["Telegram 任务发送成功"]
    | Except.error _ => ["Telegram 任务发送失败"]
  if task.runOnce then
    let found := tm.tasks.any fun x => x.id == task.id
    ({ tm with
        scheduledIds := tm.scheduledIds.filter fun i => !(i == task.id),
        tasks := disableFirst tm.tasks task.id,
        tasksSaves := tm.tasksSaves + (if found then 1 else 0) },
     notifs, true)
  else (tm, notifs, false)

/-- `TelegramTaskManager.deleteTask(taskId)`: remove the first task with the
id (`splice` at `findIndex`), persist, stop and delete any scheduled cron
job, and drop the dedup entry of a listen task. -/
def tmDeleteTask (tm : TMState) (taskId : String) : TMState × Bool :=
  match tm.tasks.find? fun t => t.id == taskId with
  | none => (tm, false)
  | some task =>
    let tm1 := { tm with
      tasks := tm.tasks.eraseP fun t => t.id == taskId,
      tasksSaves := tm.tasksSaves + 1,
      scheduledIds := tm.scheduledIds.filter fun i => !(i == taskId) }
    let tm2 :=
      if task.type = TaskType.listen then
        { tm1 with dedup := tm1.dedup.filter fun p => !(p.1 == taskId) }
      else tm1
    (tm2, true)

/-- One listener record of `TelegramService.activeListeners` together with
its closure-captured `shouldStop` boolean: `active` is membership in the
`activeListeners` Map, `stopFlag` the captured boolean observed by the
polling loop, and `boundAccountId` the account whose session the loop uses
(resolved once, when the listener started). -/
structure Listener where
  taskId : String
  boundAccountId : String
  stopFlag : Bool
  active : Bool
  deriving DecidableEq, Repr

/-- The orchestrator state of `TelegramService`: the account manager, the
task manager and the listener registry. -/
structure OrchState where
  mgr : MgrState
  tm : TMState
  listeners : List Listener
  deriving DecidableEq, Repr

/-- `getSession(accountId)` reduced to the resolved account id: a falsy
argument falls back to `activeAccountId`, and the result is `null` unless the
resolved id is registered. -/
def resolveAccountId (mgr : MgrState) (explicit : Option String) : Option String :=
  let aid := match explicit with
    | some i => some i
    | none => mgr.activeAccountId
  match aid with
  | none => none
  | some i => if hasAccount mgr i then some i else none

/-- `TelegramService.startListenTask(task)`: no-op for non-listen tasks;
stop and remove any existing listener for the task id; resolve
`task.accountId || activeAccountId` through `getSession`; when a session
exists, register a fresh running listener bound to that account. -/
def startListenTask (st : OrchState) (task : Task) : OrchState :=
  if task.type ≠ TaskType.listen then st
  else
    let listeners1 := st.listeners.map fun l =>
      if l.taskId == task.id && l.active then
        { l with stopFlag := true, active := false }
      else l
    match resolveAccountId st.mgr task.accountId with
    | none => { st with listeners := listeners1 }
    | some accId =>
      { st with listeners := listeners1 ++
          [{ taskId := task.id, boundAccountId := accId,
             stopFlag := false, active := true }] }

/-- `TelegramService.stopListenTask(taskId)`: flip the captured stop flag of
the active listener for the id and delete it from `activeListeners`. -/
def stopListenTask (st : OrchState) (taskId : String) : OrchState :=
  { st with listeners := st.listeners.map fun l =>
      if l.taskId == taskId && l.active then
        { l with stopFlag := true, active := false }
      else l }

/-- `TelegramService.rescheduleAllTasks()`: delegate to
`taskManager.rescheduleAll` with the send execution callback. The listen
start callback supplied at the call site is dropped by `rescheduleAll`
(which declares a single parameter), so the listener registry is untouched. -/
def rescheduleAllTasks (validate : String → Bool) (st : OrchState) : OrchState :=
  { st with tm := rescheduleAll validate st.tm }

/-- `TelegramService.switchAccount(accountId)`: switch in the account
manager; on success reschedule all tasks. -/
def orchSwitchAccount (validate : String → Bool) (st : OrchState)
    (accountId : String) : OrchState × Bool :=
  let r := switchAccount st.mgr accountId
  let st1 := { st with mgr := r.1 }
  if r.2 then (rescheduleAllTasks validate st1, true) else (st1, false)

/-- `TelegramService.deleteTask(taskId)`: stop the listener of a listen task,
then delete the task in the task manager. -/
def orchDeleteTask (st : OrchState) (taskId : String) : OrchState × Bool :=
  let st1 := match getTask st.tm taskId with
    | some t => if t.type = TaskType.listen then stopListenTask st taskId else st
    | none => st
  let r := tmDeleteTask st1.tm taskId
  ({ st1 with tm := r.1 }, r.2)

/-- The `{ success, message }` result of `runTaskNow`, extended with the log
of `sendMessage` attempts `(accountId, to, message)` made during the call. -/
structure RunOutcome where
  success : Bool
  message : String
  sends : List (String × String × String)
  deriving DecidableEq, Repr

/-- `TelegramService.runTaskNow(taskId, accountId)`: fail for a missing task;
resolve `accountId || task.accountId || activeAccountId` to a session; fail
when no session exists; consult `session.getHealth()` (abstracted by `auth`)
and fail with an explicit message when not authorized, without sending;
otherwise attempt the send (the task's `enabled` flag is never consulted),
reporting the thrown error on failure. `sendErr accId = none` means
`sendMessage` succeeds for that account's session. -/
def runTaskNow (st : OrchState) (auth : String → Bool)
    (sendErr : String → Option String) (taskId : String)
    (accountId : Option String) : RunOutcome :=
  match getTask st.tm taskId with
  | none => { success := false, message := "任务不存在", sends := [] }
  | some task =>
    let explicit := match accountId with
      | some i => some i
      | none => task.accountId
    match resolveAccountId st.mgr explicit with
    | none =>
      { success := false
        message := "账号 " ++
          ((match explicit with
            | some i => some i
            | none => st.mgr.activeAccountId).getD "null") ++ " 的会话不存在"
        sends := [] }
    | some accId =>
      if !(auth accId) then
        { success := false, message := "账号未授权，无法发送消息", sends := [] }
      else
        match sendErr accId with
        | some e =>
          { success := false, message := e,
            sends := [(accId, task.sendTo, task.message)] }
        | none =>
          { success := true, message := "消息已发送至 " ++ task.sendTo,
            sends := [(accId, task.sendTo, task.message)] }

/-- The body of the message-collection pass of one `monitorChannel` poll
cycle: walk the (newest-first) `iterMessages` feed, keep messages until one
with a falsy id or an id at most `lastMessageId` is met (the `break`), then
process the kept messages oldest-first (`messages.reverse()`), delivering a
message and advancing `lastMessageId` exactly when its id exceeds the current
`lastMessageId`. `deliverAsc` is the oldest-first processing loop. -/
def deliverAsc (last : Nat) : List Nat → Nat × List Nat
  | [] => (last, [])
  | i :: is =>
    if last < i then
      ((deliverAsc i is).1, i :: (deliverAsc i is).2)
    else deliverAsc last is

/-- One poll cycle of `monitorChannel` over the feed the client returned for
this cycle (newest first, already truncated to the `limit: 30` window).
Returns the advanced `lastMessageId` and the ids delivered to the callback,
in delivery order. -/
def runCycle (last : Nat) (feed : List Nat) : Nat × List Nat :=
  deliverAsc last ((feed.takeWhile fun i => decide (last < i)).reverse)

/-- Run successive poll cycles (one feed per cycle) with no stop request. -/
def monitorCycles (last : Nat) : List (List Nat) → Nat × List Nat
  | [] => (last, [])
  | f :: fs =>
    ((monitorCycles (runCycle last f).1 fs).1,
     (runCycle last f).2 ++ (monitorCycles (runCycle last f).1 fs).2)

/-- The `while (!stopCondition())` polling loop: `stop i` is the value of the
closure-captured flag as observed by the check at the top of cycle `i`; a
cycle runs only when the check fails, so no cycle beginning after the flag is
set delivers anything. -/
def monitorLoop (stop : Nat → Bool) : Nat → Nat → List (List Nat) → Nat × List Nat
  | last, _, [] => (last, [])
  | last, idx, f :: fs =>
    if stop idx then (last, [])
    else
      ((monitorLoop stop (runCycle last f).1 (idx + 1) fs).1,
       (runCycle last f).2 ++ (monitorLoop stop (runCycle last f).1 (idx + 1) fs).2)

/-- Result of a `monitorChannel` run: how many times the channel entity was
resolved (`getEntity` calls), the ids delivered to the callback in order, and
the final `lastMessageId`. -/
structure MonitorResult where
  resolutions : Nat
  delivered : List Nat
  lastSeen : Nat
  deriving DecidableEq, Repr

/-- `TelegramSession.monitorChannel(channelId, onMessage, stopCondition)` on
the real-client path: resolve the entity once (`entityOk` is whether
`getEntity` produced an entity; on failure the function returns without
polling); capture the newest message id of the initial
`getMessages(entity, { limit: 1 })` feed as the baseline (`0` when the feed
is empty); then run the poll cycles. -/
def monitorChannel (entityOk : Bool) (initialFeed : List Nat)
    (cycles : List (List Nat)) : MonitorResult :=
  if !entityOk then { resolutions := 1, delivered := [], lastSeen := 0 }
  else
    { resolutions := 1
      delivered := (monitorCycles (initialFeed.headD 0) cycles).2
      lastSeen := (monitorCycles (initialFeed.headD 0) cycles).1 }

/-- Concrete operation sequence used to exercise `claim_C2`. -/
def c2WitnessOps : List MgrOp :=
  [MgrOp.add "+15551234567" "Primary" 0, MgrOp.add "+2025550100" "Backup" 1,
   MgrOp.switch "2025550100"]

/-- Concrete registry used to exercise `claim_C10`. -/
def c10St : MgrState :=
  { accounts := [{ id := "1", phone := "+1", name := "A", active := true,
                   sessionFile := "s1", createdAt := 0 }],
    activeAccountId := some "1", saves := 0 }

/-- Concrete runOnce send task used to exercise `claim_C8`. -/
def c8Task : Task :=
  { id := "t8", type := TaskType.send, cron := "30 8 * * *", sendTo := "@x",
    message := "hi", channel := "", accountId := none, enabled := true,
    runOnce := true }

/-- Concrete task-manager state used to exercise `claim_C8`. -/
def c8TM : TMState :=
  { tasks := [c8Task], scheduledIds := ["t8"], tasksSaves := 0, dedup := [] }

/-- Unscoped enabled listen task used to exhibit the `claim_C1` divergence. -/
def c1Task : Task :=
  { id := "lt1", type := TaskType.listen, cron := "", sendTo := "",
    message := "", channel := "@chan", accountId := none, enabled := true,
    runOnce := false }

/-- Listener for `c1Task`, bound to account "1" (active when it started). -/
def c1Listener : Listener :=
  { taskId := "lt1", boundAccountId := "1", stopFlag := false, active := true }

/-- First account of the `claim_C1` registry (active). -/
def c1AcctA : Account :=
  { id := "1", phone := "+1", name := "A", active := true,
    sessionFile := "s1", createdAt := 0 }

/-- Second account of the `claim_C1` registry. -/
def c1AcctB : Account :=
  { id := "2", phone := "+2", name := "B", active := false,
    sessionFile := "s2", createdAt := 0 }

/-- Registry of the `claim_C1` state. -/
def c1Mgr : MgrState :=
  { accounts := [c1AcctA, c1AcctB], activeAccountId := some "1", saves := 0 }

/-- Task manager of the `claim_C1` state. -/
def c1TM : TMState :=
  { tasks := [c1Task], scheduledIds := [], tasksSaves := 0,
    dedup := [("lt1", [])] }

/-- Two-account orchestrator state with one running unscoped listener, used
to exhibit the `claim_C1` divergence. -/
def c1State : OrchState :=
  { mgr := c1Mgr, tm := c1TM, listeners := [c1Listener] }

/-- Disabled send task used to exercise `claim_C5`. -/
def c5Task : Task :=
  { id := "t5", type := TaskType.send, cron := "30 8 * * *", sendTo := "@bot",
    message := "/ping", channel := "", accountId := none, enabled := false,
    runOnce := false }

/-- Account of the `claim_C5` registry. -/
def c5Acct : Account :=
  { id := "7", phone := "+7", name := "S", active := true,
    sessionFile := "s7", createdAt := 0 }

/-- Registry of the `claim_C5` state. -/
def c5Mgr : MgrState :=
  { accounts := [c5Acct], activeAccountId := some "7", saves := 0 }

/-- Task manager of the `claim_C5` state. -/
def c5TM : TMState :=
  { tasks := [c5Task], scheduledIds := [], tasksSaves := 0, dedup := [] }

/-- One-account orchestrator state used to exercise `claim_C5`. -/
def c5State : OrchState :=
  { mgr := c5Mgr, tm := c5TM, listeners := [] }

/-- Enabled listen task used to exercise `claim_C6`. -/
def c6Task : Task :=
  { id := "lt6", type := TaskType.listen, cron := "", sendTo := "",
    message := "", channel := "@c", accountId := none, enabled := true,
    runOnce := false }

/-- Account of the `claim_C6` registry. -/
def c6Acct : Account :=
  { id := "6", phone := "+6", name := "F", active := true,
    sessionFile := "s6", createdAt := 0 }

/-- Registry of the `claim_C6` state. -/
def c6Mgr : MgrState :=
  { accounts := [c6Acct], activeAccountId := some "6", saves := 0 }

/-- Task manager of the `claim_C6` state. -/
def c6TM : TMState :=
  { tasks := [c6Task], scheduledIds := [], tasksSaves := 0,
    dedup := [("lt6", [])] }

/-- Listener of the `claim_C6` state. -/
def c6Listener : Listener :=
  { taskId := "lt6", boundAccountId := "6", stopFlag := false, active := true }

/-- Orchestrator state with one running listener used to exercise
`claim_C6`. -/
def c6State : OrchState :=
  { mgr := c6Mgr, tm := c6TM, listeners := [c6Listener] }

end LBS

namespace LBS

/-- `hasAccount` holds exactly when some registered account carries the id. -/
theorem hasAccount_iff (s : MgrState) (accountId : String) :
    hasAccount s accountId = true ↔ ∃ a, a ∈ s.accounts ∧ a.id = accountId := by
  simp [hasAccount, List.any_eq_true, beq_iff_eq]

/-- C9. When scheduling a send task, a 5-field cron expression
(minute hour day month weekday) is accepted and internally normalized to the
6-field form by prefixing a "0" seconds field; in particular "30 8 * * *" is
scheduled as "0 30 8 * * *". -/
theorem claim_C9 :
    (∀ s : String, cronFieldCount s = 5 → normalizeCron s = "0 " ++ jsTrim s) ∧
    normalizeCron "30 8 * * *" = "0 30 8 * * *" := by
  constructor
  · intro s h
    simp [normalizeCron, h]
  · decide

/-- Witness for `claim_C9` at the concrete expression "30 8 * * *". -/
theorem claim_C9_witness :
    cronFieldCount "30 8 * * *" = 5 ∧
    normalizeCron "30 8 * * *" = "0 " ++ jsTrim "30 8 * * *" :=
  ⟨by decide, claim_C9.1 "30 8 * * *" (by decide)⟩

/-- Adding an account with an unregistered id yields the error-free branch
and appends exactly one account with the derived id. -/
theorem addAccount_fresh (s : MgrState) (phone name : String) (now : Nat)
    (h : hasAccount s (makeAccountId phone) = false) :
    ∃ a, (addAccount s phone name now).2 = Except.ok a ∧
      a.id = makeAccountId phone ∧
      (addAccount s phone name now).1.accounts = s.accounts ++ [a] := by
  simp only [addAccount]
  rw [if_neg (by simp [h])]
  exact ⟨_, rfl, rfl, rfl⟩

/-- Adding an account whose derived id is registered returns the
"already exists" error and leaves the state untouched (in particular no
`saveAccounts` write happens and the active account is unchanged). -/
theorem addAccount_dup (s : MgrState) (phone name : String) (now : Nat)
    (h : hasAccount s (makeAccountId phone) = true) :
    addAccount s phone name now = (s, Except.error "账号已存在") := by
  simp only [addAccount]
  rw [if_pos h]

/-- C7. addAccount(phone, name) succeeds the first time for a given phone; a
second call whose phone derives the same account id fails with an "already
exists" error, and on that failure the registry state — accounts, active
account and save counter (no file written) — is exactly the state after the
first call. -/
theorem claim_C7 (s : MgrState) (phone name phone2 name2 : String)
    (now now2 : Nat)
    (h1 : hasAccount s (makeAccountId phone) = false)
    (h2 : makeAccountId phone2 = makeAccountId phone) :
    (∃ a, (addAccount s phone name now).2 = Except.ok a) ∧
    (addAccount (addAccount s phone name now).1 phone2 name2 now2).2 =
      Except.error "账号已存在" ∧
    (addAccount (addAccount s phone name now).1 phone2 name2 now2).1 =
      (addAccount s phone name now).1 := by
  obtain ⟨a, hok, haid, hacc⟩ := addAccount_fresh s phone name now h1
  have hkey : hasAccount (addAccount s phone name now).1 (makeAccountId phone2) = true := by
    rw [hasAccount_iff]
    exact ⟨a, by simp [hacc], by rw [haid, h2]⟩
  have hdup := addAccount_dup (addAccount s phone name now).1 phone2 name2 now2 hkey
  exact ⟨⟨a, hok⟩, by rw [hdup], by rw [hdup]⟩

/-- Witness for `claim_C7`: adding "+15551234567" to the empty registry once
succeeds, a second identical call fails without mutating. -/
theorem claim_C7_witness :
    hasAccount initMgrState (makeAccountId "+15551234567") = false ∧
    ((∃ a, (addAccount initMgrState "+15551234567" "Primary" 0).2 = Except.ok a) ∧
     (addAccount (addAccount initMgrState "+15551234567" "Primary" 0).1
        "+15551234567" "Primary" 1).2 = Except.error "账号已存在" ∧
     (addAccount (addAccount initMgrState "+15551234567" "Primary" 0).1
        "+15551234567" "Primary" 1).1 =
       (addAccount initMgrState "+15551234567" "Primary" 0).1) :=
  ⟨by decide, claim_C7 initMgrState "+15551234567" "Primary" "+15551234567"
    "Primary" 0 1 (by decide) rfl⟩

/-- A pair drawn from the positional zip of a list with its map is a
function application pair. -/
theorem zip_map_mem {α β : Type} (l : List α) (f : α → β) (a : α) (b : β)
    (hab : (a, b) ∈ l.zip (l.map f)) : b = f a := by
  induction l with
  | nil => cases hab
  | cons x xs ih =>
    rw [List.map_cons, List.zip_cons_cons] at hab
    rcases List.mem_cons.mp hab with h | h
    · rw [Prod.mk.injEq] at h
      rw [h.1]
      exact h.2
    · exact ih h

/-- C10. updateAccount(accountId, updates) changes only the target account's
name (when a name is provided): id, phone, active, sessionFile and createdAt
of that account, and every other account (positionally), are unchanged, as is
the active account id; for an unknown accountId it returns null and modifies
nothing. -/
theorem claim_C10 (s : MgrState) (accountId : String) (newName : Option String) :
    (hasAccount s accountId = false → updateAccount s accountId newName = (s, none)) ∧
    (hasAccount s accountId = true →
      (updateAccount s accountId newName).1.activeAccountId = s.activeAccountId ∧
      (updateAccount s accountId newName).1.accounts.length = s.accounts.length ∧
      ∀ a b : Account,
        (a, b) ∈ s.accounts.zip (updateAccount s accountId newName).1.accounts →
        b.id = a.id ∧ b.phone = a.phone ∧ b.active = a.active ∧
        b.sessionFile = a.sessionFile ∧ b.createdAt = a.createdAt ∧
        (a.id ≠ accountId → b.name = a.name) ∧
        (a.id = accountId → b.name = newName.getD a.name)) := by
  constructor
  · intro h
    simp [updateAccount, h]
  · intro h
    have haccs : (updateAccount s accountId newName).1.accounts =
        s.accounts.map fun a =>
          if a.id == accountId then { a with name := newName.getD a.name }
          else a := by
      simp [updateAccount, h]
    refine ⟨by simp [updateAccount, h], by simp [haccs], ?_⟩
    intro a b hab
    rw [haccs] at hab
    have hb : b = (if a.id == accountId
        then { a with name := newName.getD a.name } else a) :=
      zip_map_mem s.accounts
        (fun x => if x.id == accountId
          then { x with name := newName.getD x.name } else x) a b hab
    by_cases hid : a.id = accountId
    · rw [show (a.id == accountId) = true by simp [hid], if_pos rfl] at hb
      subst hb
      exact ⟨rfl, rfl, rfl, rfl, rfl, fun hne => absurd hid hne, fun _ => rfl⟩
    · rw [show (a.id == accountId) = false by simp [hid]] at hb
      simp only [Bool.false_eq_true, if_false] at hb
      subst hb
      exact ⟨rfl, rfl, rfl, rfl, rfl, fun _ => rfl, fun heq => absurd heq hid⟩

/-- Witness for `claim_C10` on a one-account registry. -/
theorem claim_C10_witness :
    hasAccount c10St "1" = true ∧
    ((updateAccount c10St "1" (some "Renamed")).1.activeAccountId =
       c10St.activeAccountId ∧
     (updateAccount c10St "1" (some "Renamed")).1.accounts.length =
       c10St.accounts.length ∧
     ∀ a b : Account,
       (a, b) ∈ c10St.accounts.zip (updateAccount c10St "1" (some "Renamed")).1.accounts →
       b.id = a.id ∧ b.phone = a.phone ∧ b.active = a.active ∧
       b.sessionFile = a.sessionFile ∧ b.createdAt = a.createdAt ∧
       (a.id ≠ "1" → b.name = a.name) ∧
       (a.id = "1" → b.name = (some "Renamed").getD a.name)) :=
  ⟨by decide, (claim_C10 c10St "1" (some "Renamed")).2 (by decide)⟩

/-- Looking up one key after the dedup-set update of another entry commutes
with the update, since the update preserves keys. -/
theorem find?_upd_key (m : DedupMap) (tid tid2 : String) (msgId : Nat) :
    ((m.map fun p => if p.1 == tid then (p.1, p.2 ++ [msgId]) else p).find?
      fun p => p.1 == tid2) =
    (m.find? fun p => p.1 == tid2).map
      (fun p => if p.1 == tid then (p.1, p.2 ++ [msgId]) else p) := by
  rw [List.find?_map]
  have hcomp : ((fun p : String × List Nat => p.1 == tid2) ∘
      fun p : String × List Nat =>
        if (p.1 == tid) = true then (p.1, p.2 ++ [msgId]) else p) =
      fun p : String × List Nat => p.1 == tid2 := by
    funext p
    by_cases h : (p.1 == tid) = true
    · simp [Function.comp, h]
    · simp [Function.comp, h]
  rw [hcomp]

/-- Branch equation of `markMessageAsProcessed` when the task has a dedup
entry. -/
theorem mark_eq_some (m : DedupMap) (tid : String) (msgId : Nat)
    (q : String × List Nat)
    (hf : m.find? (fun p => p.1 == tid) = some q) :
    markMessageAsProcessed m tid msgId =
      if q.2.contains msgId then (false, m)
      else (true, m.map fun p =>
        if p.1 == tid then (p.1, p.2 ++ [msgId]) else p) := by
  unfold markMessageAsProcessed
  rw [hf]

/-- Branch equation of `markMessageAsProcessed` when the task has no dedup
entry yet. -/
theorem mark_eq_none (m : DedupMap) (tid : String) (msgId : Nat)
    (hf : m.find? (fun p => p.1 == tid) = none) :
    markMessageAsProcessed m tid msgId =
      (true, (m ++ [(tid, [])]).map fun p : String × List Nat =>
        if p.1 == tid then (p.1, p.2 ++ [msgId]) else p) := by
  unfold markMessageAsProcessed
  rw [hf]

/-- `markMessageAsProcessed` reports a message as new exactly when it is not
in the task's dedup set. -/
theorem mark_isNew (m : DedupMap) (tid : String) (msgId : Nat) :
    (markMessageAsProcessed m tid msgId).1 = !(memDedup m tid msgId) := by
  cases hf : m.find? fun p => p.1 == tid with
  | some q =>
    rw [mark_eq_some m tid msgId q hf]
    have hmem : memDedup m tid msgId = q.2.contains msgId := by
      simp [memDedup, hf]
    cases hc : q.2.contains msgId
    · rw [hmem, hc]
      rfl
    · rw [hmem, hc]
      rfl
  | none =>
    rw [mark_eq_none m tid msgId hf]
    have hmem : memDedup m tid msgId = false := by simp [memDedup, hf]
    rw [hmem]
    rfl

/-- Effect of `markMessageAsProcessed` on dedup-set membership: the pair
`(tid, msgId)` is added and nothing else changes. -/
theorem mark_mem (m : DedupMap) (tid : String) (msgId : Nat) (tid2 : String)
    (msg2 : Nat) :
    memDedup (markMessageAsProcessed m tid msgId).2 tid2 msg2 =
      (memDedup m tid2 msg2 || (tid == tid2 && msgId == msg2)) := by
  cases hf : m.find? fun p => p.1 == tid with
  | some q =>
    rw [mark_eq_some m tid msgId q hf]
    by_cases hnew : q.2.contains msgId = true
    · rw [if_pos hnew]
      show memDedup m tid2 msg2 = _
      by_cases htt : tid = tid2
      · subst htt
        by_cases hmm2 : msgId = msg2
        · subst hmm2
          have hmemq : memDedup m tid msgId = q.2.contains msgId := by
            simp [memDedup, hf]
          rw [hmemq, hnew]
          simp
        · simp [show (msgId == msg2) = false by simp [hmm2]]
      · simp [show (tid == tid2) = false by simp [htt]]
    · rw [if_neg hnew]
      show memDedup (m.map fun p =>
        if p.1 == tid then (p.1, p.2 ++ [msgId]) else p) tid2 msg2 = _
      unfold memDedup
      rw [find?_upd_key]
      cases hf2 : m.find? fun p => p.1 == tid2 with
      | none =>
        by_cases htt : tid = tid2
        · subst htt
          rw [hf] at hf2
          cases hf2
        · simp [show (tid == tid2) = false by simp [htt]]
      | some r =>
        have hr := List.find?_some hf2
        by_cases hrt : (r.1 == tid) = true
        · have h1 : r.1 = tid := by simpa using hrt
          have h2 : r.1 = tid2 := by simpa using hr
          have htt : tid = tid2 := h1 ▸ h2
          subst htt
          simp only [Option.map_some', Option.getD_some]
          rw [show (if (r.1 == tid) = true then (r.1, r.2 ++ [msgId]) else r) =
            (r.1, r.2 ++ [msgId]) from by rw [if_pos hrt]]
          by_cases hmm2 : msgId = msg2
          · subst hmm2
            simp
          · simp [show (msgId == msg2) = false by simp [hmm2], hmm2]
            intro h
            exact absurd h.symm hmm2
        · have hrt2 : (r.1 == tid) = false := by
            cases hcc : (r.1 == tid)
            · rfl
            · exact absurd hcc hrt
          have htt : (tid == tid2) = false := by
            have h2 : r.1 = tid2 := by simpa using hr
            by_cases he : tid = tid2
            · exfalso
              apply hrt
              simp [h2, he]
            · simp [he]
          simp only [Option.map_some', Option.getD_some]
          rw [show (if (r.1 == tid) = true then (r.1, r.2 ++ [msgId]) else r) =
            r from by rw [if_neg (by simp [hrt2])]]
          simp [htt]
  | none =>
    rw [mark_eq_none m tid msgId hf]
    show memDedup ((m ++ [(tid, [])]).map fun p : String × List Nat =>
      if p.1 == tid then (p.1, p.2 ++ [msgId]) else p) tid2 msg2 = _
    unfold memDedup
    rw [find?_upd_key, List.find?_append]
    cases hf2 : m.find? fun p => p.1 == tid2 with
    | some r =>
      have hr := List.find?_some hf2
      have hrt2 : (r.1 == tid) = false := by
        cases hcc : (r.1 == tid)
        · rfl
        · exfalso
          have h1 : r.1 = tid := by simpa using hcc
          have hno := List.find?_eq_none.mp hf r (List.mem_of_find?_eq_some hf2)
          simp [h1] at hno
      have htt : (tid == tid2) = false := by
        have h2 : r.1 = tid2 := by simpa using hr
        by_cases he : tid = tid2
        · exfalso
          have h1 : r.1 = tid := h2.trans he.symm
          rw [show (r.1 == tid) = true by simp [h1]] at hrt2
          cases hrt2
        · simp [he]
      rw [show ((some r).or (List.find? (fun p => p.1 == tid2)
        [(tid, ([] : List Nat))])) = some r from rfl]
      simp only [Option.map_some', Option.getD_some]
      rw [show (if (r.1 == tid) = true then (r.1, r.2 ++ [msgId]) else r) =
        r from by rw [if_neg (by simp [hrt2])]]
      simp [htt]
    | none =>
      by_cases htt : tid = tid2
      · subst htt
        by_cases hmm2 : msgId = msg2
        · subst hmm2
          simp
        · simp [hmm2, Ne.symm hmm2]
      · have htt2 : (tid == tid2) = false := by simp [htt]
        simp [htt2, htt]

/-- Per-batch dedup behaviour of the listen-task message callback: a message
id is notified exactly once when it occurs in the batch and was not yet in
the task's dedup set, and afterwards the set holds exactly the old ids plus
the batch. -/
theorem processBatch_spec (tid : String) (msg : Nat) :
    ∀ (batch : List Nat) (m : DedupMap),
      ((processBatch m tid batch).2.count msg =
        if msg ∈ batch ∧ memDedup m tid msg = false then 1 else 0) ∧
      memDedup (processBatch m tid batch).1 tid msg =
        (memDedup m tid msg || batch.contains msg) := by
  intro batch
  induction batch with
  | nil =>
    intro m
    simp [processBatch]
  | cons b rest ih =>
    intro m
    have hnext := ih (markMessageAsProcessed m tid b).2
    have hmm : memDedup (markMessageAsProcessed m tid b).2 tid msg =
        (memDedup m tid msg || (b == msg)) := by
      rw [mark_mem]
      simp
    constructor
    · rw [show (processBatch m tid (b :: rest)).2 =
        (if (markMessageAsProcessed m tid b).1 then [b] else []) ++
          (processBatch (markMessageAsProcessed m tid b).2 tid rest).2 from rfl]
      rw [List.count_append, hnext.1, hmm, mark_isNew]
      by_cases hb : b = msg
      · subst hb
        cases hm : memDedup m tid b
        · simp [hm]
        · simp [hm]
      · cases hm : memDedup m tid msg
        · cases hnewb : memDedup m tid b <;>
            simp [hm, hb, show (b == msg) = false by simp [hb],
              List.count_singleton', hnewb, Ne.symm hb]
        · cases hnewb : memDedup m tid b <;>
            simp [hm, hb, show (b == msg) = false by simp [hb],
              List.count_singleton', hnewb, Ne.symm hb]
    · rw [show (processBatch m tid (b :: rest)).1 =
        (processBatch (markMessageAsProcessed m tid b).2 tid rest).1 from rfl]
      rw [hnext.2, hmm]
      cases hm : memDedup m tid msg <;> by_cases hb : b = msg <;>
        simp [hb, List.contains_cons] <;> simp [show (b == msg) = false by simp [hb], Ne.symm hb]

/-- Across a sequence of batches, a message id is notified exactly once when
it occurs somewhere and was not in the dedup set initially. -/
theorem processBatches_spec (tid : String) (msg : Nat) :
    ∀ (batches : List (List Nat)) (m : DedupMap),
      ((processBatches m tid batches).2.count msg =
        if msg ∈ batches.join ∧ memDedup m tid msg = false then 1 else 0) ∧
      memDedup (processBatches m tid batches).1 tid msg =
        (memDedup m tid msg || (batches.join).contains msg) := by
  intro batches
  induction batches with
  | nil =>
    intro m
    simp [processBatches]
  | cons b bs ih =>
    intro m
    have hb := processBatch_spec tid msg b m
    have hbs := ih (processBatch m tid b).1
    constructor
    · rw [show (processBatches m tid (b :: bs)).2 =
        (processBatch m tid b).2 ++ (processBatches (processBatch m tid b).1 tid bs).2
        from rfl]
      rw [List.count_append, hb.1, hbs.1, hb.2]
      by_cases hmemb : msg ∈ b
      · cases hm : memDedup m tid msg <;>
          simp [hmemb, hm, List.mem_join]
      · cases hm : memDedup m tid msg <;>
          simp [hmemb, hm]
    · rw [show (processBatches m tid (b :: bs)).1 =
        (processBatches (processBatch m tid b).1 tid bs).1 from rfl]
      rw [hbs.2, hb.2]
      simp [List.join, Bool.or_assoc]

/-- C3. For every listen task and every sequence of message batches delivered
to its callback, each distinct message id produces exactly one notification,
even when batches overlap: starting from an empty dedup map the number of
notifications for an id equals one exactly when the id occurs in some batch;
marking returns true the first time and false on every later call with the
same (task id, message id) — it reports a message new iff it is not in the
set, and marking adds exactly that (task id, message id) pair — and the
callback notifies exactly the ids whose marking returned true. -/
theorem claim_C3 (tid : String) (batches : List (List Nat)) (msg : Nat)
    (m : DedupMap) (tid2 : String) (msg2 : Nat) :
    ((processBatches [] tid batches).2.count msg =
      if msg ∈ batches.join then 1 else 0) ∧
    (markMessageAsProcessed m tid msg).1 = !(memDedup m tid msg) ∧
    memDedup (markMessageAsProcessed m tid msg).2 tid2 msg2 =
      (memDedup m tid2 msg2 || (tid == tid2 && msg == msg2)) := by
  refine ⟨?_, mark_isNew m tid msg, mark_mem m tid msg tid2 msg2⟩
  have h := (processBatches_spec tid msg batches []).1
  have hempty : memDedup [] tid msg = false := by simp [memDedup]
  rw [h, hempty]
  by_cases hj : msg ∈ batches.join
  · simp [hj]
  · simp [hj]

/-- In a task list with distinct ids, disabling the first task carrying an id
leaves every task with that id disabled. -/
theorem disableFirst_spec (l : List Task) (tid : String)
    (hn : (l.map Task.id).Nodup) :
    ∀ t ∈ disableFirst l tid, t.id = tid → t.enabled = false := by
  induction l with
  | nil =>
    intro t ht
    simp [disableFirst] at ht
  | cons a l ih =>
    intro t ht htid
    rw [List.map_cons, List.nodup_cons] at hn
    by_cases ha : a.id = tid
    · rw [disableFirst, show (a.id == tid) = true by simp [ha], if_pos rfl] at ht
      rcases List.mem_cons.mp ht with h | h
      · subst h; rfl
      · exfalso
        have hmem : t.id ∈ l.map Task.id := List.mem_map.mpr ⟨t, h, rfl⟩
        rw [htid, ← ha] at hmem
        exact hn.1 hmem
    · rw [disableFirst, show (a.id == tid) = false by simp [ha]] at ht
      simp only [Bool.false_eq_true, if_false] at ht
      rcases List.mem_cons.mp ht with h | h
      · subst h; exact absurd htid ha
      · exact ih hn.2 t h htid

/-- C8. For every scheduled send task with runOnce set, after its first cron
firing the task is set to enabled:false and persisted to the tasks file
(one saveTasks write), regardless of whether the execution succeeded or
failed, and its cron job is stopped and removed from the schedule map. -/
theorem claim_C8 (tm : TMState) (task : Task) (outcome : Except String Nat)
    (h1 : task.runOnce = true)
    (h2 : task.id ∈ tm.tasks.map Task.id)
    (h3 : (tm.tasks.map Task.id).Nodup) :
    (fireCronJob tm task outcome).2.2 = true ∧
    task.id ∉ (fireCronJob tm task outcome).1.scheduledIds ∧
    (∀ t ∈ (fireCronJob tm task outcome).1.tasks, t.id = task.id →
      t.enabled = false) ∧
    (fireCronJob tm task outcome).1.tasksSaves = tm.tasksSaves + 1 := by
  have hfound : (tm.tasks.any fun x => x.id == task.id) = true := by
    rw [List.any_eq_true]
    rcases List.mem_map.mp h2 with ⟨t, ht, hte⟩
    exact ⟨t, ht, by simp [hte]⟩
  refine ⟨?_, ?_, ?_, ?_⟩
  · simp [fireCronJob, h1]
  · simp [fireCronJob, h1, List.mem_filter]
  · intro t ht htid
    have ht' : t ∈ disableFirst tm.tasks task.id := by
      simpa [fireCronJob, h1] using ht
    exact disableFirst_spec tm.tasks task.id h3 t ht' htid
  · simp [fireCronJob, h1, hfound]

/-- The successful branch of `addAccount`, with the new state spelled out. -/
theorem addAccount_fresh_state (s : MgrState) (p n : String) (t : Nat)
    (h : hasAccount s (makeAccountId p) = false) :
    (addAccount s p n t).1 =
      { accounts := s.accounts ++
          [{ id := makeAccountId p, phone := p,
             name := if n = "" then p else n,
             active := s.accounts.isEmpty,
             sessionFile := "./data/telegram-session-" ++ makeAccountId p ++ ".txt",
             createdAt := t }],
        activeAccountId := if s.accounts.isEmpty then some (makeAccountId p)
          else s.activeAccountId,
        saves := s.saves + 1 } := by
  simp [addAccount, h]

/-- The fresh registry satisfies the invariant. -/
theorem inv_init : Inv initMgrState := by
  constructor
  · simp [initMgrState]
  · exact Or.inl ⟨rfl, rfl⟩

/-- `addAccount` preserves the registry invariant. -/
theorem inv_addAccount (s : MgrState) (p n : String) (t : Nat) (h : Inv s) :
    Inv (addAccount s p n t).1 := by
  by_cases hc : hasAccount s (makeAccountId p) = true
  · rw [addAccount_dup s p n t hc]
    exact h
  · have hcf : hasAccount s (makeAccountId p) = false := by
      cases hb : hasAccount s (makeAccountId p)
      · rfl
      · exact absurd hb hc
    have hnotin : makeAccountId p ∉ s.accounts.map Account.id := by
      intro hm
      rcases List.mem_map.mp hm with ⟨a, ha, haid⟩
      have := (hasAccount_iff s (makeAccountId p)).mpr ⟨a, ha, haid⟩
      rw [hcf] at this
      cases this
    rw [addAccount_fresh_state s p n t hcf]
    rcases h with ⟨hnd, hdis⟩
    cases hsacc : s.accounts with
    | nil =>
      rw [hsacc] at hnd hdis
      constructor
      · simp
      · right
        refine ⟨makeAccountId p, by simp,
          ⟨{ id := makeAccountId p, phone := p,
             name := if n = "" then p else n, active := List.isEmpty [],
             sessionFile := "./data/telegram-session-" ++ makeAccountId p ++ ".txt",
             createdAt := t },
           List.mem_append.mpr (Or.inr (List.mem_singleton.mpr rfl)), rfl⟩, ?_⟩
        intro a ha
        simp only [List.isEmpty_nil, List.nil_append, List.mem_singleton] at ha
        subst ha
        simp
    | cons a0 rest =>
      rw [hsacc] at hnd hdis hnotin
      rcases hdis with ⟨_, habs⟩ | ⟨i, hi, ⟨w, hw, hwid⟩, hall⟩
      · exact absurd habs (List.cons_ne_nil a0 rest)
      · constructor
        · rw [List.map_append, List.nodup_append]
          refine ⟨hnd, by simp, ?_⟩
          intro x hx hx2
          simp only [List.map_cons, List.map_nil, List.mem_singleton] at hx2
          subst hx2
          exact hnotin hx
        · right
          refine ⟨i, by simpa using hi, ⟨w, List.mem_append.mpr (Or.inl hw), hwid⟩, ?_⟩
          intro a ha
          rcases List.mem_append.mp ha with ha | ha
          · exact hall a ha
          · simp only [List.mem_singleton] at ha
            subst ha
            constructor
            · intro habs
              simp at habs
            · intro hid
              exfalso
              apply hnotin
              have hi2 : makeAccountId p = i := by simpa using hid
              rw [hi2]
              exact List.mem_map.mpr ⟨w, hw, hwid⟩

/-- `removeAccount` preserves the registry invariant. -/
theorem inv_removeAccount (s : MgrState) (aid : String) (h : Inv s) :
    Inv (removeAccount s aid).1 := by
  by_cases hc : hasAccount s aid = true
  · rcases h with ⟨hnd, hdis⟩
    rcases hdis with ⟨_, hnil⟩ | ⟨i, hi, ⟨w, hw, hwid⟩, hall⟩
    · exfalso
      rcases (hasAccount_iff s aid).mp hc with ⟨a, ha, _⟩
      rw [hnil] at ha
      cases ha
    · by_cases hia : s.activeAccountId = some aid
      · simp only [removeAccount]
        rw [if_pos hc, if_pos hia]
        have hiaid : i = aid := by
          rw [hi] at hia
          exact Option.some.inj hia
        cases hrem : s.accounts.filter (fun a => !(a.id == aid)) with
        | nil =>
          simp only
          exact ⟨by simp, Or.inl ⟨rfl, rfl⟩⟩
        | cons first rest =>
          simp only
          have hsub : (first :: rest).Sublist s.accounts := by
            rw [← hrem]
            exact List.filter_sublist s.accounts
          have hnd' : ((first :: rest).map Account.id).Nodup :=
            List.Nodup.sublist (hsub.map Account.id) hnd
          constructor
          · simpa using hnd'
          · right
            refine ⟨first.id, rfl,
              ⟨{ first with active := true }, List.mem_cons_self _ _, rfl⟩, ?_⟩
            intro a ha
            rcases List.mem_cons.mp ha with rfl | ha
            · simp
            · have haremain : a ∈ s.accounts.filter (fun x => !(x.id == aid)) := by
                rw [hrem]
                exact List.mem_cons_of_mem _ ha
              have hmem := List.mem_filter.mp haremain
              have hane : a.id ≠ aid := by simpa using hmem.2
              have hactive : a.active = false := by
                cases hact : a.active
                · rfl
                · exact absurd ((hall a hmem.1).mp hact) (hiaid ▸ hane)
              have haid2 : a.id ≠ first.id := by
                intro heq
                have hmm : a.id ∈ rest.map Account.id := List.mem_map.mpr ⟨a, ha, rfl⟩
                have hnd2 := hnd'
                rw [List.map_cons, List.nodup_cons] at hnd2
                exact hnd2.1 (heq ▸ hmm)
              constructor
              · intro habs
                rw [hactive] at habs
                cases habs
              · intro habs
                exact absurd habs haid2
      · simp only [removeAccount]
        rw [if_pos hc, if_neg hia]
        have hine : i ≠ aid := fun he => hia (he ▸ hi)
        constructor
        · exact List.Nodup.sublist ((List.filter_sublist s.accounts).map Account.id) hnd
        · right
          refine ⟨i, hi, ⟨w, List.mem_filter.mpr ⟨hw, by simp [hwid, hine]⟩, hwid⟩, ?_⟩
          intro a ha
          exact hall a (List.mem_filter.mp ha).1
  · have hcf : hasAccount s aid = false := by
      cases hb : hasAccount s aid
      · rfl
      · exact absurd hb hc
    have : removeAccount s aid = (s, false) := by
      simp [removeAccount, hcf]
    rw [this]
    exact h

/-- The successful branch of `switchAccount`, with the new state spelled
out. -/
theorem switchAccount_known (s : MgrState) (aid : String)
    (hc : hasAccount s aid = true) :
    switchAccount s aid =
      ({ accounts := (s.accounts.map fun a => { a with active := false }).map
            (fun a => if a.id == aid then { a with active := true } else a),
         activeAccountId := some aid, saves := s.saves + 1 }, true) := by
  simp [switchAccount, hc]

/-- `switchAccount` preserves the account ids. -/
theorem switch_map_id (l : List Account) (aid : String) :
    ((l.map fun a => { a with active := false }).map
      (fun a => if a.id == aid then { a with active := true } else a)).map
        Account.id = l.map Account.id := by
  induction l with
  | nil => rfl
  | cons a tl ih =>
    simp only [List.map_cons, List.cons.injEq]
    refine ⟨?_, ih⟩
    by_cases hida : a.id = aid <;> simp [hida]

/-- `switchAccount` preserves the registry invariant. -/
theorem inv_switchAccount (s : MgrState) (aid : String) (h : Inv s) :
    Inv (switchAccount s aid).1 := by
  by_cases hc : hasAccount s aid = true
  · rcases h with ⟨hnd, _⟩
    rcases (hasAccount_iff s aid).mp hc with ⟨w, hw, hwid⟩
    rw [switchAccount_known s aid hc]
    constructor
    · simp only
      rw [switch_map_id]
      exact hnd
    · right
      refine ⟨aid, rfl, ?_, ?_⟩
      · refine ⟨{ w with active := true }, ?_, by simpa using hwid⟩
        apply List.mem_map.mpr
        refine ⟨{ w with active := false }, List.mem_map.mpr ⟨w, hw, rfl⟩, ?_⟩
        rw [show (({ w with active := false } : Account).id == aid) = true by
          simp [hwid]]
        simp
      · intro a ha
        rcases List.mem_map.mp ha with ⟨b, hb, hba⟩
        rcases List.mem_map.mp hb with ⟨c, hcmem, hcb⟩
        subst hcb
        by_cases hcid : c.id = aid
        · rw [show (({ c with active := false } : Account).id == aid) = true by
            simp [hcid], if_pos rfl] at hba
          subst hba
          simp [hcid]
        · rw [show (({ c with active := false } : Account).id == aid) = false by
            simp [hcid]] at hba
          simp only [Bool.false_eq_true, if_false] at hba
          subst hba
          simp [hcid]
  · have hcf : hasAccount s aid = false := by
      cases hb : hasAccount s aid
      · rfl
      · exact absurd hb hc
    have : switchAccount s aid = (s, false) := by
      simp [switchAccount, hcf]
    rw [this]
    exact h

/-- Every registry operation preserves the invariant. -/
theorem inv_applyOp (s : MgrState) (op : MgrOp) (h : Inv s) :
    Inv (applyOp s op) := by
  cases op with
  | add p n t => exact inv_addAccount s p n t h
  | remove i => exact inv_removeAccount s i h
  | switch i => exact inv_switchAccount s i h

/-- Every sequence of registry operations preserves the invariant. -/
theorem inv_applyOps (ops : List MgrOp) :
    ∀ s : MgrState, Inv s → Inv (applyOps s ops) := by
  induction ops with
  | nil => intro s h; exact h
  | cons op ops ih =>
    intro s h
    exact ih _ (inv_applyOp s op h)

/-- A list whose `active` flags characterize one registered id, with distinct
ids, has exactly one active element. -/
theorem activeCount_eq_one (l : List Account) (i : String)
    (hn : (l.map Account.id).Nodup)
    (hwit : ∃ a, a ∈ l ∧ a.id = i)
    (hall : ∀ a ∈ l, (a.active = true ↔ a.id = i)) :
    activeCount l = 1 := by
  induction l with
  | nil =>
    rcases hwit with ⟨a, ha, _⟩
    cases ha
  | cons a tl ih =>
    rw [List.map_cons, List.nodup_cons] at hn
    by_cases hid : a.id = i
    · have hact : a.active = true := (hall a (List.mem_cons_self a tl)).mpr hid
      have htl : tl.filter (fun x => x.active) = [] := by
        rw [List.filter_eq_nil_iff]
        intro b hb hbact
        have hbid : b.id = i := (hall b (List.mem_cons_of_mem a hb)).mp hbact
        have hmm : a.id ∈ tl.map Account.id := by
          rw [hid, ← hbid]
          exact List.mem_map.mpr ⟨b, hb, rfl⟩
        exact hn.1 hmm
      unfold activeCount
      rw [List.filter_cons_of_pos (by simp [hact]), htl]
      rfl
    · have hact : a.active = false := by
        cases hb : a.active
        · rfl
        · exact absurd ((hall a (List.mem_cons_self a tl)).mp hb) hid
      have hwit' : ∃ b, b ∈ tl ∧ b.id = i := by
        rcases hwit with ⟨b, hb, hbid⟩
        rcases List.mem_cons.mp hb with rfl | hbtl
        · exact absurd hbid hid
        · exact ⟨b, hbtl, hbid⟩
      have hrec := ih hn.2 hwit' (fun b hb => hall b (List.mem_cons_of_mem a hb))
      unfold activeCount at hrec ⊢
      rw [List.filter_cons_of_neg (by simp [hact])]
      exact hrec

/-- C2. After any sequence of addAccount, removeAccount and switchAccount
operations on a registry that contains at least one account, exactly one
Account has active=true; in particular every successful switchAccount(id)
leaves the target account as the unique active one. -/
theorem claim_C2 (ops : List MgrOp) :
    ((applyOps initMgrState ops).accounts ≠ [] →
      activeCount (applyOps initMgrState ops).accounts = 1) ∧
    ∀ aid : String,
      (switchAccount (applyOps initMgrState ops) aid).2 = true →
      activeCount ((switchAccount (applyOps initMgrState ops) aid).1).accounts = 1 ∧
      ∀ a ∈ ((switchAccount (applyOps initMgrState ops) aid).1).accounts,
        (a.active = true ↔ a.id = aid) := by
  have hinv := inv_applyOps ops initMgrState inv_init
  constructor
  · intro hne
    rcases hinv with ⟨hnd, hdis⟩
    rcases hdis with ⟨_, hnil⟩ | ⟨i, _, hwit, hall⟩
    · exact absurd hnil hne
    · exact activeCount_eq_one _ i hnd hwit hall
  · intro aid hsw
    have hc : hasAccount (applyOps initMgrState ops) aid = true := by
      by_contra hcn
      have hcf : hasAccount (applyOps initMgrState ops) aid = false := by
        cases hb : hasAccount (applyOps initMgrState ops) aid
        · rfl
        · exact absurd hb hcn
      rw [show switchAccount (applyOps initMgrState ops) aid =
        (applyOps initMgrState ops, false) from by simp [switchAccount, hcf]] at hsw
      cases hsw
    have hinv2 := inv_switchAccount (applyOps initMgrState ops) aid hinv
    have hact : ((switchAccount (applyOps initMgrState ops) aid).1).activeAccountId =
        some aid := by
      rw [switchAccount_known _ _ hc]
    rcases hinv2 with ⟨hnd, hdis⟩
    rcases hdis with ⟨hnone, _⟩ | ⟨i, hi, hwit, hall⟩
    · rw [hact] at hnone
      cases hnone
    · rw [hact] at hi
      have hieq : i = aid := (Option.some.inj hi).symm
      subst hieq
      exact ⟨activeCount_eq_one _ i hnd hwit hall, hall⟩

/-- Witness for `claim_C2`: two adds and a switch leave exactly one active
account, namely the switch target. -/
theorem claim_C2_witness :
    ((applyOps initMgrState c2WitnessOps).accounts ≠ [] ∧
      activeCount (applyOps initMgrState c2WitnessOps).accounts = 1) ∧
    ((switchAccount (applyOps initMgrState c2WitnessOps) "15551234567").2 = true ∧
      activeCount ((switchAccount (applyOps initMgrState c2WitnessOps)
        "15551234567").1).accounts = 1) :=
  ⟨⟨by decide, (claim_C2 c2WitnessOps).1 (by decide)⟩,
   ⟨by decide, ((claim_C2 c2WitnessOps).2 "15551234567" (by decide)).1⟩⟩

/-- Witness for `claim_C8`: a failing runOnce firing still disables, saves
and unschedules the task. -/
theorem claim_C8_witness :
    (c8Task.runOnce = true ∧ c8Task.id ∈ c8TM.tasks.map Task.id ∧
      (c8TM.tasks.map Task.id).Nodup) ∧
    ((fireCronJob c8TM c8Task (Except.error "network down")).2.2 = true ∧
     c8Task.id ∉ (fireCronJob c8TM c8Task (Except.error "network down")).1.scheduledIds ∧
     (∀ t ∈ (fireCronJob c8TM c8Task (Except.error "network down")).1.tasks,
        t.id = c8Task.id → t.enabled = false) ∧
     (fireCronJob c8TM c8Task (Except.error "network down")).1.tasksSaves =
       c8TM.tasksSaves + 1) :=
  ⟨⟨rfl, by decide, by decide⟩,
   claim_C8 c8TM c8Task (Except.error "network down") rfl (by decide) (by decide)⟩

/-- `deliverAsc` delivers a strictly ascending chain of ids, all above the
incoming `lastMessageId`, never decreases it, and leaves it at the final
delivered id. -/
theorem deliverAsc_spec (l : List Nat) (last : Nat) :
    last ≤ (deliverAsc last l).1 ∧
    (deliverAsc last l).1 = (deliverAsc last l).2.getLastD last ∧
    List.Chain' (fun a b => a < b) (last :: (deliverAsc last l).2) ∧
    ((deliverAsc last l).2.all fun i => decide (last < i)) = true := by
  induction l generalizing last with
  | nil =>
    exact ⟨Nat.le_refl last, rfl, by simp [deliverAsc], rfl⟩
  | cons i is ih =>
    by_cases h : last < i
    · have heq : deliverAsc last (i :: is) =
          ((deliverAsc i is).1, i :: (deliverAsc i is).2) := by
        simp only [deliverAsc]
        rw [if_pos h]
      obtain ⟨ih1, ih2, ih3, ih4⟩ := ih i
      rw [heq]
      refine ⟨Nat.le_trans (Nat.le_of_lt h) ih1, ?_, ?_, ?_⟩
      · rw [List.getLastD_cons]
        exact ih2
      · exact List.chain'_cons.mpr ⟨h, ih3⟩
      · simp only [List.all_cons, Bool.and_eq_true]
        refine ⟨by simp [h], ?_⟩
        rw [List.all_eq_true] at ih4 ⊢
        intro x hx
        have hxx := ih4 x hx
        simp only [decide_eq_true_eq] at hxx ⊢
        omega
    · have heq : deliverAsc last (i :: is) = deliverAsc last is := by
        simp only [deliverAsc]
        rw [if_neg h]
      rw [heq]
      exact ih last

/-- One poll cycle only delivers ids strictly above the incoming last-seen
id, oldest first, and advances the last-seen id monotonically. -/
theorem runCycle_spec (last : Nat) (feed : List Nat) :
    last ≤ (runCycle last feed).1 ∧
    (runCycle last feed).1 = (runCycle last feed).2.getLastD last ∧
    List.Chain' (fun a b => a < b) (last :: (runCycle last feed).2) ∧
    ((runCycle last feed).2.all fun i => decide (last < i)) = true := by
  unfold runCycle
  exact deliverAsc_spec _ last

/-- `getLastD` distributes over append. -/
theorem getLastD_append (d1 d2 : List Nat) (a : Nat) :
    (d1 ++ d2).getLastD a = d2.getLastD (d1.getLastD a) := by
  induction d1 generalizing a with
  | nil => rfl
  | cons x xs ih =>
    rw [List.cons_append, List.getLastD_cons, List.getLastD_cons, ih]

/-- Across successive poll cycles the delivered ids form one strictly
ascending chain above the baseline and the last-seen id never decreases. -/
theorem monitorCycles_spec (cs : List (List Nat)) :
    ∀ last : Nat,
      last ≤ (monitorCycles last cs).1 ∧
      (monitorCycles last cs).1 = (monitorCycles last cs).2.getLastD last ∧
      List.Chain' (fun a b => a < b) (last :: (monitorCycles last cs).2) ∧
      ((monitorCycles last cs).2.all fun i => decide (last < i)) = true := by
  induction cs with
  | nil =>
    intro last
    exact ⟨Nat.le_refl last, rfl, by simp [monitorCycles], rfl⟩
  | cons f fs ih =>
    intro last
    obtain ⟨hc1, hc2, hc3, hc4⟩ := runCycle_spec last f
    obtain ⟨ih1, ih2, ih3, ih4⟩ := ih (runCycle last f).1
    have heq : monitorCycles last (f :: fs) =
        ((monitorCycles (runCycle last f).1 fs).1,
         (runCycle last f).2 ++ (monitorCycles (runCycle last f).1 fs).2) := by
      simp only [monitorCycles]
    rw [heq]
    refine ⟨Nat.le_trans hc1 ih1, ?_, ?_, ?_⟩
    · rw [getLastD_append, ← hc2]
      exact ih2
    · rw [show (last :: ((runCycle last f).2 ++
        (monitorCycles (runCycle last f).1 fs).2)) =
        ((last :: (runCycle last f).2) ++
          (monitorCycles (runCycle last f).1 fs).2) from rfl]
      rw [List.chain'_append]
      refine ⟨hc3, (List.chain'_cons'.mp ih3).2, ?_⟩
      intro x hx y hy
      have hx2 : x = (runCycle last f).2.getLastD last := by
        rw [List.getLast?_cons] at hx
        simp only [Option.mem_def, Option.some.injEq] at hx
        rw [← hx, List.getLastD_eq_getLast?]
      have hy2 : (runCycle last f).1 < y := (List.chain'_cons'.mp ih3).1 y hy
      rw [hx2, ← hc2]
      exact hy2
    · rw [List.all_append, Bool.and_eq_true]
      refine ⟨hc4, ?_⟩
      rw [List.all_eq_true] at ih4 ⊢
      intro x hx
      have h1 := ih4 x hx
      simp only [decide_eq_true_eq] at h1 ⊢
      omega

/-- A stop flag observed from cycle index `s` on cuts the polling loop down
to exactly the first `s - idx` cycles. -/
theorem monitorLoop_take (s : Nat) :
    ∀ (cycles : List (List Nat)) (idx last : Nat),
      monitorLoop (fun i => decide (s ≤ i)) last idx cycles =
        monitorCycles last (cycles.take (s - idx)) := by
  intro cycles
  induction cycles with
  | nil =>
    intro idx last
    simp [monitorLoop, monitorCycles]
  | cons f fs ih =>
    intro idx last
    by_cases h : s ≤ idx
    · have hs : s - idx = 0 := Nat.sub_eq_zero_of_le h
      rw [hs]
      have hstop : monitorLoop (fun i => decide (s ≤ i)) last idx (f :: fs) =
          (last, []) := by
        simp only [monitorLoop]
        rw [if_pos (by simpa using h)]
      rw [hstop]
      rfl
    · obtain ⟨k, hk⟩ : ∃ k, s - idx = k + 1 := ⟨s - idx - 1, by omega⟩
      rw [hk, List.take_succ_cons]
      have heq : monitorLoop (fun i => decide (s ≤ i)) last idx (f :: fs) =
          ((monitorLoop (fun i => decide (s ≤ i)) (runCycle last f).1 (idx + 1) fs).1,
           (runCycle last f).2 ++
             (monitorLoop (fun i => decide (s ≤ i)) (runCycle last f).1
               (idx + 1) fs).2) := by
        simp only [monitorLoop]
        rw [if_neg (by simpa using h)]
      rw [heq, ih (idx + 1) (runCycle last f).1]
      have hk2 : s - (idx + 1) = k := by omega
      rw [hk2]
      simp only [monitorCycles]

/-- C4. monitorChannel resolves the channel entity once, takes the newest
message id of the initial fetch as a baseline so no message at most the
baseline (in particular none already present at start) is ever delivered, on
each cycle fetches/delivers only messages with id strictly greater than the
last-seen id, invokes the callback on them oldest-first (the delivered ids
form a strictly increasing chain), and advances the last-seen id
monotonically across cycles. -/
theorem claim_C4 (entityOk : Bool) (initialFeed : List Nat)
    (cycles : List (List Nat)) (last : Nat) (feed : List Nat) :
    (monitorChannel entityOk initialFeed cycles).resolutions = 1 ∧
    List.Chain' (fun a b => a < b)
      (initialFeed.headD 0 ::
        (monitorChannel entityOk initialFeed cycles).delivered) ∧
    ((monitorChannel entityOk initialFeed cycles).delivered.all
      fun i => decide (initialFeed.headD 0 < i)) = true ∧
    ((runCycle last feed).2.all fun i => decide (last < i)) = true ∧
    last ≤ (runCycle last feed).1 := by
  obtain ⟨hr1, _, _, hr4⟩ := runCycle_spec last feed
  cases entityOk
  · exact ⟨rfl, by simp [monitorChannel], by simp [monitorChannel], hr4, hr1⟩
  · obtain ⟨_, _, h3, h4⟩ := monitorCycles_spec cycles (initialFeed.headD 0)
    have hdel : (monitorChannel true initialFeed cycles).delivered =
        (monitorCycles (initialFeed.headD 0) cycles).2 := rfl
    refine ⟨rfl, ?_, ?_, hr4, hr1⟩
    · rw [hdel]
      exact h3
    · rw [hdel]
      exact h4

/-- C6. deleteTask on an enabled listen task stops the active listener: the
listener registry afterwards has the task's listener stopped (flag set,
removed from the active map) and no listener for the task active, and the
polling loop, whose stop flag it observes at the top of each cycle, delivers
nothing from any cycle beginning once the flag is set — a loop stopped from
cycle index s on behaves exactly like one fed only the first s cycles. -/
theorem claim_C6 (st : OrchState) (tid : String) (t : Task)
    (hget : getTask st.tm tid = some t) (hty : t.type = TaskType.listen) :
    ((orchDeleteTask st tid).1.listeners =
      st.listeners.map fun l =>
        if l.taskId == tid && l.active then
          { l with stopFlag := true, active := false }
        else l) ∧
    (∀ l ∈ (orchDeleteTask st tid).1.listeners,
      l.taskId = tid → l.active = false) ∧
    ∀ (last s : Nat) (cycles : List (List Nat)),
      monitorLoop (fun i => decide (s ≤ i)) last 0 cycles =
        monitorCycles last (cycles.take s) := by
  have hlist : (orchDeleteTask st tid).1.listeners =
      st.listeners.map fun l =>
        if l.taskId == tid && l.active then
          { l with stopFlag := true, active := false } else l := by
    simp [orchDeleteTask, hget, hty, stopListenTask]
  refine ⟨hlist, ?_, ?_⟩
  · intro l hl htid
    rw [hlist] at hl
    rcases List.mem_map.mp hl with ⟨l0, hl0, heq⟩
    have htid0 : l0.taskId = tid := by
      have htq := congrArg Listener.taskId heq
      by_cases hcond2 : (l0.taskId == tid && l0.active) = true
      · rw [if_pos hcond2] at htq
        exact htq.trans htid
      · rw [if_neg hcond2] at htq
        exact htq.trans htid
    by_cases hcond : (l0.taskId == tid && l0.active) = true
    · rw [if_pos hcond] at heq
      rw [← heq]
    · rw [if_neg hcond] at heq
      rw [← heq]
      cases hact : l0.active
      · rfl
      · exfalso
        apply hcond
        simp [htid0, hact]
  · intro last s cycles
    have h := monitorLoop_take s cycles 0 last
    simpa using h

/-- Witness for `claim_C6` on a one-listener state. -/
theorem claim_C6_witness :
    (getTask c6State.tm "lt6" = some c6Task ∧
      c6Task.type = TaskType.listen) ∧
    ∀ l ∈ (orchDeleteTask c6State "lt6").1.listeners,
      l.taskId = "lt6" → l.active = false :=
  ⟨⟨by decide, rfl⟩, (claim_C6 c6State "lt6" c6Task (by decide) rfl).2.1⟩

/-- C5. For every existing send task, runTaskNow(taskId, accountId?)
executes the send even when the task has enabled:false, provided the
resolved account's session reports authorized:true (and reports success when
sendMessage does not throw); when the session reports authorized:false it
does not send and returns a failure result with the explicit message
"账号未授权，无法发送消息". -/
theorem claim_C5 (st : OrchState) (auth : String → Bool)
    (sendErr : String → Option String) (taskId : String) (acc : Option String)
    (task : Task) (accId : String)
    (hget : getTask st.tm taskId = some task)
    (hty : task.type = TaskType.send)
    (hen : task.enabled = false)
    (hres : resolveAccountId st.mgr
      (match acc with | some i => some i | none => task.accountId) = some accId) :
    (auth accId = true →
      (runTaskNow st auth sendErr taskId acc).sends =
        [(accId, task.sendTo, task.message)] ∧
      (sendErr accId = none →
        (runTaskNow st auth sendErr taskId acc).success = true)) ∧
    (auth accId = false →
      (runTaskNow st auth sendErr taskId acc).success = false ∧
      (runTaskNow st auth sendErr taskId acc).message = "账号未授权，无法发送消息" ∧
      (runTaskNow st auth sendErr taskId acc).sends = []) := by
  constructor
  · intro ha
    constructor
    · cases hsd : sendErr accId <;>
        simp [runTaskNow, hget, hres, ha, hsd]
    · intro hnone
      simp [runTaskNow, hget, hres, ha, hnone]
  · intro ha
    refine ⟨?_, ?_, ?_⟩ <;> simp [runTaskNow, hget, hres, ha]

/-- Witness for `claim_C5`: a disabled send task still sends when the
session is authorized. -/
theorem claim_C5_witness :
    (getTask c5State.tm "t5" = some c5Task ∧ c5Task.enabled = false) ∧
    ((runTaskNow c5State (fun _ => true) (fun _ => none) "t5" none).sends =
      [("7", c5Task.sendTo, c5Task.message)] ∧
     (runTaskNow c5State (fun _ => true) (fun _ => none) "t5" none).success =
       true) :=
  ⟨⟨by decide, rfl⟩,
   by
     have h := (claim_C5 c5State (fun _ => true) (fun _ => none) "t5" none
       c5Task "7" (by decide) rfl rfl (by decide)).1 rfl
     exact ⟨h.1, h.2 rfl⟩⟩

/-- C1 (divergence witness). On a registry with accounts "1" (active) and
"2", one enabled unscoped listen task and its running listener bound to
account "1", a successful Orchestrator switchAccount("2") activates account
"2" and reschedules send tasks, but leaves the listener registry exactly as
it was — still running, still bound to account "1", not restarted — because
`rescheduleAll` accepts a single callback (the listen-start callback passed
by `rescheduleAllTasks` is dropped) and `scheduleTask` skips listen tasks;
in general orchestrator switchAccount never modifies the listeners. -/
theorem claim_C1 :
    (orchSwitchAccount (fun _ => true) c1State "2").2 = true ∧
    (orchSwitchAccount (fun _ => true) c1State "2").1.listeners = [c1Listener] ∧
    c1Listener.boundAccountId = "1" ∧ c1Listener.active = true ∧
    c1Listener.stopFlag = false ∧
    (orchSwitchAccount (fun _ => true) c1State "2").1.mgr.activeAccountId =
      some "2" ∧
    ∀ (validate : String → Bool) (st : OrchState) (accountId : String),
      (orchSwitchAccount validate st accountId).1.listeners = st.listeners := by
  refine ⟨by decide, by decide, rfl, rfl, rfl, by decide, ?_⟩
  intro validate st accountId
  cases hb : (switchAccount st.mgr accountId).2 <;>
    simp [orchSwitchAccount, rescheduleAllTasks, hb]

end LBS
